import Mathlib

/-!
Verification of the random quantum-circuit generator (`random_circuit` in
`src/temp.py`) against its natural-language specification.

The generator is embedded shallowly:

* The sampling service (numpy `Generator`) is abstracted as a deterministic
  stream of raw draws (`Rng`): an integer stream `ints` with cursor `k` and a
  rational stream `reals` with cursor `j`.  The spec scopes the concrete
  pseudo-random algorithms out ("numeric-sampling primitives ... are treated
  as services the core calls into"), so only the *deterministic threading* of
  one call-scoped source matters, which the embedding renders exactly: every
  draw consumes the stream at the cursor and advances it.
* The construction of a source from a seed (numpy `default_rng(seed)`) is a
  parameter `fromSeed : Nat -> Rng` of `random_circuit`; the hidden global
  state consulted by `np.random.randint` when no seed is given is a parameter
  `sysEntropy`.
* Python exceptions become `Except GenError`; a `ValueError` raised by numpy
  (empty `choice` range, `integers` with `low >= high`) aborts the call, as
  in the source.  An empty catalog bucket passed to `rng.choice` is the
  spec's `CatalogExhausted` condition.  Referencing the unbound name
  `operation` (the `num_operands not in {1,2,3}` fall-through) or `cr` (a
  condition drawn while no classical register exists) would be a Python
  `NameError`; it is modelled as `GenError.Unreachable`.
* Angles are rationals; the float constant `2 * np.pi` is a fixed rational
  stand-in (`twoPi`, the IEEE-754 double closest to 2*pi).  No claim depends
  on its value, only on how many draws are consumed and on determinism.
* `np.power(2, num_qubits)` is evaluated by numpy in the platform-default
  64-bit signed integer type and silently wraps around; `npPower` models
  this two's-complement wrap-around exactly.
* Qubits and classical bits are wire indices `0 .. num_qubits-1`; a gate
  bound to wires with optional angles and an optional classical condition is
  an `EmittedOp`; the circuit accumulates instructions in emission order.
* Collaborator validation (`QuantumRegister(num_qubits, 'q')`, source line
  48) is outside the repository; per the spec's interface contract (sections
  4.1, 6, 7) it rejects `num_qubits < 1` with `InvalidArgument` before any
  generation work.
-/

namespace RandomCircuit

/-- Error taxonomy of the generator (spec section 7), plus `Unreachable` for
Python `NameError` on a name the source leaves unbound on some paths. -/
inductive GenError
  | InvalidArgument
  | CatalogExhausted
  | ValueError
  | Unreachable
  deriving DecidableEq, Repr

/-- Classical register: `ClassicalRegister(num_qubits, 'c')`. -/
structure ClassicalRegister where
  size : Nat
  name : String
  deriving DecidableEq, Repr

/-- Call-scoped sampling source (`rng = np.random.default_rng(seed)`): a
deterministic stream of raw integer draws (`ints`, cursor `k`) and raw
rational draws (`reals`, cursor `j`).  Every random primitive of the source
consumes the stream at its cursor and advances it. -/
structure Rng where
  ints : Nat → Nat
  reals : Nat → ℚ
  k : Nat
  j : Nat

/-- One raw integer draw. -/
def Rng.nextNat (r : Rng) : Nat × Rng :=
  (r.ints r.k, { r with k := r.k + 1 })

/-- Uniform draw from `range(n)`, i.e. `rng.choice(range(n))`: numpy raises
`ValueError` on an empty range. -/
def Rng.choiceIdx (r : Rng) (n : Nat) : Except GenError (Nat × Rng) :=
  if n = 0 then .error .ValueError
  else
    let (v, r') := r.nextNat
    .ok (v % n, r')

/-- Uniform choice from a catalog bucket, i.e. `rng.choice(xs)` on a list:
an empty bucket is the spec's `CatalogExhausted` failure. -/
def Rng.choose {α : Type} (r : Rng) (xs : List α) : Except GenError (α × Rng) :=
  match xs with
  | [] => .error .CatalogExhausted
  | y :: ys =>
    let (v, r') := r.nextNat
    .ok ((y :: ys).get ⟨v % (y :: ys).length, Nat.mod_lt _ (Nat.succ_pos ys.length)⟩, r')

/-- `rng.integers(lo, hi)`: uniform integer in `[lo, hi)`; numpy raises
`ValueError` when `lo >= hi`. -/
def Rng.integers (r : Rng) (lo hi : Int) : Except GenError (Int × Rng) :=
  if lo < hi then
    let (v, r') := r.nextNat
    .ok (lo + (v : Int) % (hi - lo), r')
  else .error .ValueError

/-- `rng.uniform(lo, hi)`: uniform real in `[lo, hi)`, modelled on the
rational stream. -/
def Rng.uniform (r : Rng) (lo hi : ℚ) : ℚ × Rng :=
  (lo + (hi - lo) * r.reals r.j, { r with j := r.j + 1 })

/-- Swap the entries at positions `i` and `j` of a list (identity when a
position is out of range). -/
def swapL (xs : List Nat) (i j : Nat) : List Nat :=
  match xs.get? i, xs.get? j with
  | some a, some b => (xs.set i b).set j a
  | _, _ => xs

/-- Fisher–Yates steps of `rng.shuffle` for positions `i, i-1, ..., 1`:
at position `p` draw `j` uniform in `[0, p+1)` and swap entries `p` and
`j`. -/
def shuffleGo : List Nat → Rng → Nat → List Nat × Rng
  | xs, r, 0 => (xs, r)
  | xs, r, i + 1 =>
    let (v, r') := r.nextNat
    shuffleGo (swapL xs (i + 1) (v % (i + 2))) r' i

/-- `rng.shuffle(xs)`: in-place Fisher–Yates over the whole list (no draw is
consumed for a list of length 0 or 1). -/
def Rng.shuffle (r : Rng) (xs : List Nat) : List Nat × Rng :=
  shuffleGo xs r (xs.length - 1)

/-- Gate kinds appearing in the source's catalogs (lines 41-46). -/
inductive GateKind
  | RX | RY | RZ | CX | Reset
  deriving DecidableEq, Repr

/-- `one_q_ops = [RXGate, RYGate, RZGate]`, extended by `Reset` when the
`reset` flag is set (line 56). -/
def one_q_ops (reset : Bool) : List GateKind :=
  [.RX, .RY, .RZ] ++ if reset then [.Reset] else []

/-- `one_param = [RXGate, RYGate, RZGate]` (line 42). -/
def one_param : List GateKind := [.RX, .RY, .RZ]

/-- `two_param = []` (line 43). -/
def two_param : List GateKind := []

/-- `three_param = []` (line 44). -/
def three_param : List GateKind := []

/-- `two_q_ops = [CXGate]` (line 45). -/
def two_q_ops : List GateKind := [.CX]

/-- `three_q_ops = []` (line 46). -/
def three_q_ops : List GateKind := []

/-- Parameter count of a chosen gate kind (lines 78-85). -/
def numAngles (g : GateKind) : Nat :=
  if g ∈ one_param then 1
  else if g ∈ two_param then 2
  else if g ∈ three_param then 3
  else 0

/-- Rational stand-in for the float `2 * np.pi` (the IEEE-754 double closest
to two pi).  No claim depends on this value. -/
def twoPi : ℚ := 884279719003555 / 140737488355328

/-- `angles = [rng.uniform(0, 2 * np.pi) for _ in range(num_angles)]`
(line 86). -/
def drawAngles : Nat → Rng → List ℚ × Rng
  | 0, r => ([], r)
  | n + 1, r =>
    let (a, r1) := r.uniform 0 twoPi
    let (rest, r2) := drawAngles n r1
    (a :: rest, r2)

/-- Two's-complement wrap-around of an integer into the signed 64-bit
range. -/
def toInt64 (n : Int) : Int := (n + 2 ^ 63) % 2 ^ 64 - 2 ^ 63

/-- `np.power(b, e)` for Python integer scalars: numpy computes in the
platform-default signed 64-bit integer type and silently wraps around on
overflow (so `np.power(2, 63)` is negative and `np.power(2, 64)` is 0). -/
def npPower (b e : Nat) : Int := toInt64 ((b : Int) ^ e)

/-- A gate instance bound to qubit wires: gate kind, drawn angles, operand
wires `register_operands`, and the optional classical condition. -/
structure EmittedOp where
  gate : GateKind
  angles : List ℚ
  qargs : List Nat
  condition : Option (ClassicalRegister × Int)
  deriving DecidableEq, Repr

/-- One entry of the output circuit's data: a random layer operation, or a
measurement of a qubit wire into a classical wire. -/
inductive Instruction
  | op (e : EmittedOp)
  | measure (qubit clbit : Nat)
  deriving DecidableEq, Repr

/-- The output circuit: quantum wire count, the optional classical register,
and the instructions in emission order. -/
structure Circuit where
  num_qubits : Nat
  creg : Option ClassicalRegister
  data : List Instruction
  deriving DecidableEq, Repr

/-- Number of classical wires of the circuit. -/
def Circuit.num_clbits (c : Circuit) : Nat :=
  match c.creg with
  | some cr => cr.size
  | none => 0

/-- View an instruction as a layer operation (and a measurement as none). -/
def asOp : Instruction → Option EmittedOp
  | .op e => some e
  | .measure _ _ => none

/-- The layer operations of a circuit (its data without the measurements). -/
def opsOf (c : Circuit) : List EmittedOp :=
  c.data.filterMap asOp

/-- Gate-kind selection, lines 72-77: index into the catalog bucket for the
resolved operand count.  An operand count outside `{1, 2, 3}` would leave
the Python name `operation` unbound (`NameError`), modelled as
`Unreachable`. -/
def selectGate (num_operands : Nat) (one_q two_q three_q : List GateKind)
    (r : Rng) : Except GenError (GateKind × Rng) :=
  if num_operands = 1 then r.choose one_q
  else if num_operands = 2 then r.choose two_q
  else if num_operands = 3 then r.choose three_q
  else .error .Unreachable

/-- Classical-condition step, lines 91-93: when `conditional` is set, draw
from `range(10)`; on 0, draw `value = rng.integers(0, np.power(2,
num_qubits))` and attach `(cr, value)`.  Referencing `cr` when no classical
register was created would be a Python `NameError` (`Unreachable`; the
caller always passes one when `conditional` is set). -/
def drawCondition (conditional : Bool) (num_qubits : Nat)
    (creg : Option ClassicalRegister) (r : Rng) :
    Except GenError (Option (ClassicalRegister × Int) × Rng) :=
  if conditional then
    match r.choiceIdx 10 with
    | .error e => .error e
    | .ok (d, r1) =>
      if d = 0 then
        match r1.integers 0 (npPower 2 num_qubits) with
        | .error e => .error e
        | .ok (value, r2) =>
          match creg with
          | some cr => .ok (some (cr, value), r2)
          | none => .error .Unreachable
      else .ok (none, r1)
  else .ok (none, r)

theorem swapL_length (xs : List Nat) (i j : Nat) :
    (swapL xs i j).length = xs.length := by
  rw [swapL]
  split
  · simp
  · rfl

theorem shuffleGo_length (i : Nat) :
    ∀ (xs : List Nat) (r : Rng), ((shuffleGo xs r i).1).length = xs.length := by
  induction i with
  | zero => intro xs r; rfl
  | succ n ih =>
    intro xs r
    rw [shuffleGo]
    rw [ih]
    exact swapL_length xs (n + 1) _

theorem shuffle_length (r : Rng) (xs : List Nat) :
    ((r.shuffle xs).1).length = xs.length :=
  shuffleGo_length _ xs r

/-- The layer-construction `while` loop, lines 66-95.  One iteration: draw
`num_operands = rng.choice(range(min(len(remaining), 2))) + 1`, shuffle the
remaining qubits, take the first `num_operands` as the operand group and
drop them from `remaining`, select a gate kind from the bucket for
`num_operands`, draw its angles, optionally draw a classical condition, and
append the operation. -/
def buildLayer (nq : Nat) (conditional : Bool)
    (one_q two_q three_q : List GateKind) (creg : Option ClassicalRegister)
    (remaining : List Nat) (r : Rng) : Except GenError (List EmittedOp × Rng) :=
  match remaining with
  | [] => .ok ([], r)
  | q :: rest =>
    match Rng.choiceIdx r (min (q :: rest).length 2) with
    | .error e => .error e
    | .ok (t, r1) =>
      match hs : r1.shuffle (q :: rest) with
      | (shuffled, r2) =>
        match selectGate (t + 1) one_q two_q three_q r2 with
        | .error e => .error e
        | .ok (gate, r3) =>
          match drawAngles (numAngles gate) r3 with
          | (angles, r4) =>
            match drawCondition conditional nq creg r4 with
            | .error e => .error e
            | .ok (cond, r5) =>
              match buildLayer nq conditional one_q two_q three_q creg
                  (shuffled.filter fun x => decide (x ∉ shuffled.take (t + 1))) r5 with
              | .error e => .error e
              | .ok (ops, r6) =>
                .ok ({ gate := gate, angles := angles,
                       qargs := shuffled.take (t + 1), condition := cond } :: ops, r6)
  termination_by remaining.length
  decreasing_by
    have hlen : shuffled.length = (q :: rest).length := by
      have h := shuffle_length r1 (q :: rest)
      rw [hs] at h
      exact h
    cases shuffled with
    | nil => simp at hlen
    | cons s0 tl =>
      have hp : ¬ ((decide (s0 ∉ (s0 :: tl).take (t + 1))) = true) := by
        simp [List.take_succ_cons]
      calc ((s0 :: tl).filter fun x => decide (x ∉ (s0 :: tl).take (t + 1))).length
          = (tl.filter fun x => decide (x ∉ (s0 :: tl).take (t + 1))).length := by
            rw [@List.filter_cons_of_neg ℕ
              (fun x => decide (x ∉ (s0 :: tl).take (t + 1))) s0 tl hp]
        _ ≤ tl.length := List.length_filter_le _ _
        _ < (s0 :: tl).length := by simp
        _ = (q :: rest).length := hlen

/-- The depth loop, line 63: build `depth` layers in sequence, each starting
from `remaining_qubits = list(range(num_qubits))`. -/
def genLayers (nq : Nat) (conditional : Bool)
    (one_q two_q three_q : List GateKind) (creg : Option ClassicalRegister) :
    Nat → Rng → Except GenError (List (List EmittedOp) × Rng)
  | 0, r => .ok ([], r)
  | d + 1, r =>
    match buildLayer nq conditional one_q two_q three_q creg (List.range nq) r with
    | .error e => .error e
    | .ok (layer, r1) =>
      match genLayers nq conditional one_q two_q three_q creg d r1 with
      | .error e => .error e
      | .ok (layers, r2) => .ok (layer :: layers, r2)

/-- Seed resolution (lines 58-59): an explicit seed is used as given; when
absent, one is drawn from the hidden global source's raw value, uniform over
`[0, 2**31 - 1)` (`np.random.randint(0, np.iinfo(np.int32).max)`). -/
def resolveSeed (seed : Option Nat) (sysEntropy : Nat) : Nat :=
  match seed with
  | some s => s
  | none => sysEntropy % (2 ^ 31 - 1)

/-- The generator `random_circuit(num_qubits, depth, measure, conditional,
reset, seed)`.  `fromSeed` is the sampling service's seeded construction
(`np.random.default_rng(seed)`); `sysEntropy` is the raw value the hidden
global source would supply to `np.random.randint(0, 2**31 - 1)` when `seed`
is absent (line 59).  Collaborator validation of
`QuantumRegister(num_qubits, 'q')` (line 48) rejects `num_qubits < 1` with
`InvalidArgument` per the spec's interface contract, before any generation
work.  The classical register `ClassicalRegister(num_qubits, 'c')` is added
iff `measure or conditional` (lines 51-53); after the layers, `measure`
appends one measurement per qubit, wire `i` to classical wire `i`
(line 98). -/
def random_circuit (num_qubits depth : Nat) (measure conditional reset : Bool)
    (seed : Option Nat) (fromSeed : Nat → Rng) (sysEntropy : Nat) :
    Except GenError Circuit :=
  if num_qubits < 1 then .error .InvalidArgument
  else
    let creg : Option ClassicalRegister :=
      if measure || conditional then some ⟨num_qubits, "c"⟩ else none
    match genLayers num_qubits conditional (one_q_ops reset) two_q_ops
        three_q_ops creg depth (fromSeed (resolveSeed seed sysEntropy)) with
    | .error e => .error e
    | .ok (layers, _) =>
      .ok { num_qubits := num_qubits
            creg := creg
            data := (layers.flatten.map Instruction.op) ++
              (if measure then
                (List.range num_qubits).map (fun i => Instruction.measure i i)
              else []) }

/-- Sampling stream that always yields 0: a concrete instance of the
sampling service, used to evaluate the generator on explicit inputs. -/
def zeroRng : Rng := { ints := fun _ => 0, reals := fun _ => 0, k := 0, j := 0 }

/-- Seeded-construction map of the concrete sampling service: every seed
yields the all-zero stream. -/
def constSeed : Nat → Rng := fun _ => zeroRng

theorem cons_set_perm : ∀ (t : List Nat) (m b x : Nat), t.get? m = some b →
    List.Perm (b :: t.set m x) (x :: t) := by
  intro t
  induction t with
  | nil => intro m b x h; simp at h
  | cons c t' ih =>
    intro m b x h
    cases m with
    | zero =>
      simp [List.get?] at h
      subst h
      exact List.Perm.swap _ _ _
    | succ m' =>
      simp only [List.get?] at h
      have step1 : List.Perm (b :: c :: t'.set m' x) (c :: b :: t'.set m' x) :=
        List.Perm.swap c b _
      have step2 : List.Perm (c :: b :: t'.set m' x) (c :: x :: t') :=
        List.Perm.cons c (ih m' b x h)
      have step3 : List.Perm (c :: x :: t') (x :: c :: t') :=
        List.Perm.swap x c _
      exact (step1.trans step2).trans step3

theorem set_set_perm : ∀ (xs : List Nat) (i j a b : Nat),
    xs.get? i = some a → xs.get? j = some b →
    List.Perm ((xs.set i b).set j a) xs := by
  intro xs
  induction xs with
  | nil => intro i j a b h1 _; simp at h1
  | cons x t ih =>
    intro i j a b h1 h2
    cases i with
    | zero =>
      simp [List.get?] at h1
      subst h1
      cases j with
      | zero => simp [List.set]
      | succ m =>
        simp only [List.get?] at h2
        exact cons_set_perm t m b x h2
    | succ n =>
      simp only [List.get?] at h1
      cases j with
      | zero =>
        simp [List.get?] at h2
        subst h2
        exact cons_set_perm t n a x h1
      | succ m =>
        simp only [List.get?] at h2
        exact List.Perm.cons x (ih n m a b h1 h2)

theorem swapL_perm (xs : List Nat) (i j : Nat) : List.Perm (swapL xs i j) xs := by
  rw [swapL]
  split
  · rename_i a b h1 h2
    exact set_set_perm xs i j a b h1 h2
  · exact List.Perm.refl _

theorem shuffleGo_perm (i : Nat) :
    ∀ (xs : List Nat) (r : Rng), List.Perm ((shuffleGo xs r i).1) xs := by
  induction i with
  | zero => intro xs r; exact List.Perm.refl _
  | succ n ih =>
    intro xs r
    rw [shuffleGo]
    exact List.Perm.trans (ih _ _) (swapL_perm xs (n + 1) _)

theorem shuffle_perm (r : Rng) (xs : List Nat) :
    List.Perm ((r.shuffle xs).1) xs :=
  shuffleGo_perm _ xs r

theorem filter_append_split (l₁ l₂ : List Nat) (h : ∀ x ∈ l₂, x ∉ l₁) :
    ((l₁ ++ l₂).filter fun x => decide (x ∉ l₁)) = l₂ := by
  rw [List.filter_append]
  have h1 : (l₁.filter fun x => decide (x ∉ l₁)) = [] := by
    rw [List.filter_eq_nil_iff]
    intro x hx
    simp [hx]
  have h2 : (l₂.filter fun x => decide (x ∉ l₁)) = l₂ := by
    rw [List.filter_eq_self]
    intro x hx
    simpa using h x hx
  rw [h1, h2, List.nil_append]

/-- Dropping the operand group from the shuffled remaining list: since the
list has no duplicates, filtering out the members of `take k` is exactly
`drop k`. -/
theorem filter_not_mem_take (l : List Nat) (k : Nat) (h : l.Nodup) :
    (l.filter fun x => decide (x ∉ l.take k)) = l.drop k := by
  have hdisj : ∀ x ∈ l.drop k, x ∉ l.take k := by
    intro x hx hmem
    exact List.disjoint_take_drop h (le_refl k) hmem hx
  have hmain := filter_append_split (l.take k) (l.drop k) hdisj
  rw [List.take_append_drop] at hmain
  exact hmain

theorem choiceIdx_ok (r : Rng) (n t : Nat) (r' : Rng)
    (h : Rng.choiceIdx r n = .ok (t, r')) : t < n := by
  rw [Rng.choiceIdx] at h
  split at h
  · exact absurd h (by simp)
  · rename_i hn
    rw [Rng.nextNat] at h
    simp only [Except.ok.injEq, Prod.mk.injEq] at h
    rw [← h.1]
    exact Nat.mod_lt _ (Nat.pos_of_ne_zero hn)

theorem choiceIdx_error (r : Rng) (n : Nat) (e : GenError)
    (h : Rng.choiceIdx r n = .error e) : n = 0 := by
  rw [Rng.choiceIdx] at h
  split at h
  · assumption
  · exact absurd h (by rw [Rng.nextNat]; simp)

theorem choose_mem {α : Type} (r : Rng) (xs : List α) (y : α) (r' : Rng)
    (h : Rng.choose r xs = .ok (y, r')) : y ∈ xs := by
  rw [Rng.choose.eq_def] at h
  match xs, h with
  | a :: as, h =>
    simp only [Rng.nextNat, Except.ok.injEq, Prod.mk.injEq] at h
    rw [← h.1]
    exact List.get_mem _ _ _

theorem choose_error {α : Type} (r : Rng) (xs : List α) (e : GenError)
    (h : Rng.choose r xs = .error e) : xs = [] := by
  rw [Rng.choose.eq_def] at h
  match xs, h with
  | [], _ => rfl
  | a :: as, h => exact absurd h (by simp [Rng.nextNat])

theorem selectGate_mem (k : Nat) (oq tq thq : List GateKind) (r : Rng)
    (g : GateKind) (r' : Rng) (hk : k = 1 ∨ k = 2)
    (h : selectGate k oq tq thq r = .ok (g, r')) : g ∈ oq ∨ g ∈ tq := by
  rw [selectGate] at h
  rcases hk with hk | hk <;> subst hk
  · simp only [if_pos rfl] at h
    exact Or.inl (choose_mem _ _ _ _ h)
  · norm_num at h
    exact Or.inr (choose_mem _ _ _ _ h)

theorem selectGate_error (k : Nat) (oq tq thq : List GateKind) (r : Rng)
    (e : GenError) (hk : k = 1 ∨ k = 2) (hoq : oq ≠ []) (htq : tq ≠ [])
    (h : selectGate k oq tq thq r = .error e) : False := by
  rw [selectGate] at h
  rcases hk with hk | hk <;> subst hk
  · simp only [if_pos rfl] at h
    exact hoq (choose_error _ _ _ h)
  · norm_num at h
    exact htq (choose_error _ _ _ h)

theorem drawCondition_false (nq : Nat) (creg : Option ClassicalRegister)
    (r : Rng) : drawCondition false nq creg r = .ok (none, r) := rfl

theorem drawCondition_error (c : Bool) (nq : Nat)
    (creg : Option ClassicalRegister) (r : Rng) (e : GenError)
    (hcr : c = true → creg ≠ none)
    (h : drawCondition c nq creg r = .error e) : e = .ValueError := by
  cases c with
  | false => exact absurd h (by rw [drawCondition_false]; simp)
  | true =>
    rw [drawCondition] at h
    simp only [if_true, Rng.choiceIdx, Rng.nextNat] at h
    norm_num at h
    split at h
    · split at h
      · rename_i e1 heq
        rw [Rng.integers] at heq
        split at heq
        · simp [Rng.nextNat] at heq
        · simp only [Except.error.injEq] at heq h
          rw [← h, ← heq]
      · rename_i value r2 heq
        cases creg with
        | some cr => simp at h
        | none => exact absurd rfl (hcr rfl)
    · exact absurd h (by simp)

theorem filterMap_asOp_map_op (ops : List EmittedOp) :
    List.filterMap asOp (ops.map Instruction.op) = ops := by
  induction ops with
  | nil => rfl
  | cons e t ih => simp [List.filterMap_cons, asOp, ih]

theorem filterMap_asOp_measures (l : List Nat) :
    List.filterMap asOp (l.map fun i => Instruction.measure i i) = [] := by
  induction l with
  | nil => rfl
  | cons x t ih => simp [List.filterMap_cons, asOp, ih]

theorem opsOf_mk (nq : Nat) (creg : Option ClassicalRegister)
    (ops : List EmittedOp) (l : List Nat) :
    opsOf ⟨nq, creg, ops.map Instruction.op ++
      (l.map fun i => Instruction.measure i i)⟩ = ops := by
  rw [opsOf]
  show List.filterMap asOp (ops.map Instruction.op ++
    (l.map fun i => Instruction.measure i i)) = ops
  rw [List.filterMap_append, filterMap_asOp_map_op, filterMap_asOp_measures,
    List.append_nil]

theorem opsOf_mk_nomeasure (nq : Nat) (creg : Option ClassicalRegister)
    (ops : List EmittedOp) :
    opsOf ⟨nq, creg, ops.map Instruction.op ++ []⟩ = ops := by
  rw [opsOf]
  show List.filterMap asOp (ops.map Instruction.op ++ []) = ops
  rw [List.append_nil, filterMap_asOp_map_op]

/-- Invariant of the layer loop: on success, the emitted operand groups
concatenate to a permutation of the remaining qubits, and every group has
size 1 or 2. -/
theorem buildLayer_partition (nq : Nat) (conditional : Bool)
    (oq tq thq : List GateKind) (creg : Option ClassicalRegister)
    (remaining : List Nat) (r : Rng) :
    ∀ (ops : List EmittedOp) (r' : Rng), remaining.Nodup →
      buildLayer nq conditional oq tq thq creg remaining r = .ok (ops, r') →
      List.Perm ((ops.map EmittedOp.qargs).flatten) remaining ∧
      ∀ e ∈ ops, e.qargs.length = 1 ∨ e.qargs.length = 2 := by
  induction remaining, r using buildLayer.induct nq conditional oq tq thq creg with
  | case1 r =>
    intro ops r' _ h
    rw [buildLayer.eq_def] at h
    simp only [Except.ok.injEq, Prod.mk.injEq] at h
    obtain ⟨h1, h2⟩ := h
    subst h1
    constructor
    · simp
    · simp
  | case2 r q rest e2 he =>
    intro ops r' _ h
    rw [buildLayer.eq_def] at h
    simp only [he] at h
    exact absurd h (by simp)
  | case3 r q rest t r1 h1 shuffled r2 hs e2 he =>
    intro ops r' _ h
    rw [buildLayer.eq_def] at h
    simp only [h1, hs, he] at h
    exact absurd h (by simp)
  | case4 r q rest t r1 h1 shuffled r2 hs gate r3 h3 angles r4 h4 e2 he =>
    intro ops r' _ h
    rw [buildLayer.eq_def] at h
    simp only [h1, hs, h3, h4, he] at h
    exact absurd h (by simp)
  | case5 r q rest t r1 h1 shuffled r2 hs gate r3 h3 angles r4 h4 cond r5 h5 e2 he ih =>
    intro ops r' _ h
    rw [buildLayer.eq_def] at h
    simp only [h1, hs, h3, h4, h5, he] at h
    exact absurd h (by simp)
  | case6 r q rest t r1 h1 shuffled r2 hs gate r3 h3 angles r4 h4 cond r5 h5 ops0 r6 h6 ih =>
    intro ops r' hnd h
    rw [buildLayer.eq_def] at h
    simp only [h1, hs, h3, h4, h5, h6, Except.ok.injEq, Prod.mk.injEq] at h
    obtain ⟨h7, h8⟩ := h
    subst h7
    have ht : t < min (q :: rest).length 2 := choiceIdx_ok _ _ _ _ h1
    have hper : List.Perm shuffled (q :: rest) := by
      have hp := shuffle_perm r1 (q :: rest)
      rw [hs] at hp
      exact hp
    have hnds : shuffled.Nodup := (hper.nodup_iff).mpr hnd
    have hlen : shuffled.length = (q :: rest).length := hper.length_eq
    have htake : (shuffled.take (t + 1)).length = t + 1 := by
      rw [List.length_take]
      omega
    have hndfil : (shuffled.filter fun x => decide (x ∉ shuffled.take (t + 1))).Nodup :=
      hnds.filter _
    obtain ⟨ihper, ihsz⟩ := ih ops0 r6 hndfil h6
    have hfil : (shuffled.filter fun x => decide (x ∉ shuffled.take (t + 1)))
        = shuffled.drop (t + 1) := filter_not_mem_take shuffled (t + 1) hnds
    constructor
    · simp only [List.map_cons, List.flatten_cons]
      have h9 : List.Perm ((ops0.map EmittedOp.qargs).flatten)
          (shuffled.drop (t + 1)) := by
        rw [hfil] at ihper
        exact ihper
      have h10 : List.Perm
          (shuffled.take (t + 1) ++ (ops0.map EmittedOp.qargs).flatten)
          (shuffled.take (t + 1) ++ shuffled.drop (t + 1)) :=
        List.Perm.append_left _ h9
      rw [List.take_append_drop] at h10
      exact h10.trans hper
    · intro e hmem
      rcases List.mem_cons.mp hmem with h11 | h11
      · subst h11
        have : EmittedOp.qargs ⟨gate, angles, shuffled.take (t + 1), cond⟩ =
            shuffled.take (t + 1) := rfl
        rw [this, htake]
        omega
      · exact ihsz e h11

/-- When `conditional` is false no operation carries a classical condition
(source lines 91-93 consult the condition draw only under the flag). -/
theorem buildLayer_nocond (nq : Nat)
    (oq tq thq : List GateKind) (creg : Option ClassicalRegister)
    (remaining : List Nat) (r : Rng) :
    ∀ (ops : List EmittedOp) (r' : Rng),
      buildLayer nq false oq tq thq creg remaining r = .ok (ops, r') →
      ∀ e ∈ ops, e.condition = none := by
  induction remaining, r using buildLayer.induct nq false oq tq thq creg with
  | case1 r =>
    intro ops r' h
    rw [buildLayer.eq_def] at h
    simp only [Except.ok.injEq, Prod.mk.injEq] at h
    obtain ⟨h1, h2⟩ := h
    subst h1
    simp
  | case2 r q rest e2 he =>
    intro ops r' h
    rw [buildLayer.eq_def] at h
    simp only [he] at h
    exact absurd h (by simp)
  | case3 r q rest t r1 h1 shuffled r2 hs e2 he =>
    intro ops r' h
    rw [buildLayer.eq_def] at h
    simp only [h1, hs, he] at h
    exact absurd h (by simp)
  | case4 r q rest t r1 h1 shuffled r2 hs gate r3 h3 angles r4 h4 e2 he =>
    intro ops r' h
    rw [buildLayer.eq_def] at h
    simp only [h1, hs, h3, h4, he] at h
    exact absurd h (by simp)
  | case5 r q rest t r1 h1 shuffled r2 hs gate r3 h3 angles r4 h4 cond r5 h5 e2 he ih =>
    intro ops r' h
    rw [buildLayer.eq_def] at h
    simp only [h1, hs, h3, h4, h5, he] at h
    exact absurd h (by simp)
  | case6 r q rest t r1 h1 shuffled r2 hs gate r3 h3 angles r4 h4 cond r5 h5 ops0 r6 h6 ih =>
    intro ops r' h
    rw [buildLayer.eq_def] at h
    simp only [h1, hs, h3, h4, h5, h6, Except.ok.injEq, Prod.mk.injEq] at h
    obtain ⟨h7, h8⟩ := h
    subst h7
    rw [drawCondition_false] at h5
    simp only [Except.ok.injEq, Prod.mk.injEq] at h5
    intro e hmem
    rcases List.mem_cons.mp hmem with h11 | h11
    · subst h11
      have : EmittedOp.condition ⟨gate, angles, shuffled.take (t + 1), cond⟩ = cond := rfl
      rw [this, ← h5.1]
    · exact ih ops0 r6 h6 e h11

/-- The only failure the layer loop can surface is a `ValueError` from the
condition draw: the operand-count draw is over a non-empty range, the
resolved operand count is 1 or 2, and both corresponding catalog buckets
are non-empty. -/
theorem buildLayer_error (nq : Nat) (conditional : Bool)
    (oq tq thq : List GateKind) (creg : Option ClassicalRegister)
    (hoq : oq ≠ []) (htq : tq ≠ [])
    (hcr : conditional = true → creg ≠ none)
    (remaining : List Nat) (r : Rng) :
    ∀ (e : GenError),
      buildLayer nq conditional oq tq thq creg remaining r = .error e →
      e = .ValueError := by
  induction remaining, r using buildLayer.induct nq conditional oq tq thq creg with
  | case1 r =>
    intro e h
    rw [buildLayer.eq_def] at h
    simp at h
  | case2 r q rest e2 he =>
    intro e h
    have h0 := choiceIdx_error _ _ _ he
    simp only [List.length_cons] at h0
    exact absurd h0 (by omega)
  | case3 r q rest t r1 h1 shuffled r2 hs e2 he =>
    intro e h
    have ht := choiceIdx_ok _ _ _ _ h1
    have hk : t + 1 = 1 ∨ t + 1 = 2 := by omega
    exact (selectGate_error _ _ _ _ _ _ hk hoq htq he).elim
  | case4 r q rest t r1 h1 shuffled r2 hs gate r3 h3 angles r4 h4 e2 he =>
    intro e h
    rw [buildLayer.eq_def] at h
    simp only [h1, hs, h3, h4, he] at h
    simp only [Except.error.injEq] at h
    rw [← h]
    exact drawCondition_error _ _ _ _ _ hcr he
  | case5 r q rest t r1 h1 shuffled r2 hs gate r3 h3 angles r4 h4 cond r5 h5 e2 he ih =>
    intro e h
    rw [buildLayer.eq_def] at h
    simp only [h1, hs, h3, h4, h5, he] at h
    simp only [Except.error.injEq] at h
    rw [← h]
    exact ih e2 he
  | case6 r q rest t r1 h1 shuffled r2 hs gate r3 h3 angles r4 h4 cond r5 h5 ops0 r6 h6 ih =>
    intro e h
    rw [buildLayer.eq_def] at h
    simp only [h1, hs, h3, h4, h5, h6] at h
    exact absurd h (by simp)

/-- Below 63 qubits the int64 power does not overflow. -/
theorem npPower_small (e : Nat) (he : e ≤ 62) : npPower 2 e = 2 ^ e := by
  rw [npPower, toInt64]
  push_cast
  have h1 : (2 : Int) ^ e ≤ 2 ^ 62 := pow_le_pow_right₀ (by norm_num) he
  have h2 : (0 : Int) < 2 ^ e := pow_pos (by norm_num) e
  have h3 : ((2 : Int) ^ 62) = 4611686018427387904 := by norm_num
  rw [h3] at h1
  generalize (2 : Int) ^ e = x at h1 h2 ⊢
  omega

/-- At 63 qubits and beyond the int64 power is no longer positive. -/
theorem npPower_overflow (e : Nat) (he : 63 ≤ e) : npPower 2 e ≤ 0 := by
  rw [npPower, toInt64]
  push_cast
  rcases Nat.exists_eq_add_of_le he with ⟨m, rfl⟩
  rw [pow_add, show ((2 : Int) ^ 63) = 9223372036854775808 by norm_num]
  have hy : (0 : Int) ≤ 2 ^ m := pow_nonneg (by norm_num) m
  generalize (2 : Int) ^ m = y at hy ⊢
  have key : (9223372036854775808 * y + 9223372036854775808) % 18446744073709551616
      = 9223372036854775808 * ((y + 1) % 2) := by
    rw [show (9223372036854775808 : Int) * y + 9223372036854775808
        = 9223372036854775808 * (y + 1) by ring,
      show (18446744073709551616 : Int) = 9223372036854775808 * 2 by norm_num]
    exact Int.mul_emod_mul_of_pos _ _ (by norm_num)
  rw [key]
  omega

theorem drawCondition_zero (nq : Nat) (cr : ClassicalRegister) (r : Rng)
    (h1 : 1 ≤ nq) (h2 : nq ≤ 62) (hz : r.ints r.k % 10 = 0) :
    drawCondition true nq (some cr) r =
      .ok (some (cr, ((r.ints (r.k + 1) : Int)) % 2 ^ nq), { r with k := r.k + 2 }) := by
  rw [drawCondition]
  simp only [if_true, Rng.choiceIdx, Rng.nextNat]
  rw [if_neg (by norm_num : ¬(10 = 0))]
  simp only [if_pos hz, npPower_small nq h2, Rng.integers,
    if_pos (pow_pos (by norm_num : (0 : Int) < 2) nq), Rng.nextNat]
  norm_num

theorem drawCondition_nonzero (nq : Nat) (creg : Option ClassicalRegister)
    (r : Rng) (hz : r.ints r.k % 10 ≠ 0) :
    drawCondition true nq creg r = .ok (none, { r with k := r.k + 1 }) := by
  rw [drawCondition]
  simp only [if_true, Rng.choiceIdx, Rng.nextNat]
  rw [if_neg (by norm_num : ¬(10 = 0))]
  simp only [if_neg hz]

theorem drawCondition_ok (c : Bool) (nq : Nat) (creg : Option ClassicalRegister)
    (h1 : 1 ≤ nq) (h2 : nq ≤ 62) (hcr : c = true → creg ≠ none) (r : Rng) :
    ∃ cond r', drawCondition c nq creg r = .ok (cond, r') := by
  cases c with
  | false => exact ⟨none, r, rfl⟩
  | true =>
    rcases hcg : creg with _ | cr
    · exact absurd hcg (hcr rfl)
    · subst hcg
      by_cases hz : r.ints r.k % 10 = 0
      · exact ⟨_, _, drawCondition_zero nq cr r h1 h2 hz⟩
      · exact ⟨none, _, drawCondition_nonzero nq (some cr) r hz⟩

theorem selectGate_one_mem (oq tq thq : List GateKind) (r : Rng)
    (g : GateKind) (r' : Rng)
    (h : selectGate 1 oq tq thq r = .ok (g, r')) : g ∈ oq := by
  rw [selectGate] at h
  simp only [if_pos rfl] at h
  exact choose_mem _ _ _ _ h

/-- On a single qubit the loop runs exactly one iteration, placing one
single-qubit operation on wire 0 (and it always succeeds, the condition
draw included, since `np.power(2, 1)` does not overflow). -/
theorem buildLayer_one (conditional : Bool) (oq tq thq : List GateKind)
    (creg : Option ClassicalRegister) (hoq : oq ≠ [])
    (hcr : conditional = true → creg ≠ none) (r : Rng) :
    ∃ (g : GateKind) (a : List ℚ) (cond : Option (ClassicalRegister × Int))
      (r' : Rng),
      buildLayer 1 conditional oq tq thq creg [0] r = .ok ([⟨g, a, [0], cond⟩], r') ∧
      g ∈ oq := by
  have h1 : Rng.choiceIdx r (min ([0] : List Nat).length 2) =
      .ok (0, { r with k := r.k + 1 }) := by
    simp [Rng.choiceIdx, Rng.nextNat, Nat.mod_one]
  have hs : ∀ (rr : Rng), rr.shuffle [0] = ([0], rr) := fun rr => rfl
  rcases hsel : selectGate (0 + 1) oq tq thq { r with k := r.k + 1 } with e | ⟨gate, r3⟩
  · exfalso
    apply hoq
    rw [selectGate] at hsel
    simp only [if_pos rfl] at hsel
    exact choose_error _ _ _ hsel
  · have hg : gate ∈ oq := selectGate_one_mem oq tq thq _ gate r3 hsel
    rcases hang : drawAngles (numAngles gate) r3 with ⟨a, r4⟩
    obtain ⟨cond, r5, hdc⟩ :=
      drawCondition_ok conditional 1 creg (by norm_num) (by norm_num) hcr r4
    refine ⟨gate, a, cond, r5, ?_, hg⟩
    have hfil : List.filter (fun x => decide (x ∉ List.take (0 + 1) ([0] : List Nat)))
        [0] = [] := rfl
    have hrec : buildLayer 1 conditional oq tq thq creg [] r5 = .ok ([], r5) := by
      rw [buildLayer.eq_def]
    rw [buildLayer.eq_def]
    simp only [h1, hs, hsel, hang, hdc, hfil, hrec]
    rfl

/-- The depth loop emits exactly `depth` layers. -/
theorem genLayers_length (nq : Nat) (c : Bool) (oq tq thq : List GateKind)
    (creg : Option ClassicalRegister) :
    ∀ (d : Nat) (r : Rng) (layers : List (List EmittedOp)) (r' : Rng),
      genLayers nq c oq tq thq creg d r = .ok (layers, r') →
      layers.length = d := by
  intro d
  induction d with
  | zero =>
    intro r layers r' h
    rw [genLayers] at h
    simp only [Except.ok.injEq, Prod.mk.injEq] at h
    rw [← h.1]
    rfl
  | succ n ih =>
    intro r layers r' h
    rw [genLayers] at h
    rcases hbl : buildLayer nq c oq tq thq creg (List.range nq) r with e | ⟨layer, r1⟩
    · simp only [hbl] at h
      exact absurd h (by simp)
    · simp only [hbl] at h
      rcases hgl : genLayers nq c oq tq thq creg n r1 with e | ⟨layers0, r2⟩
      · simp only [hgl] at h
        exact absurd h (by simp)
      · simp only [hgl, Except.ok.injEq, Prod.mk.injEq] at h
        rw [← h.1]
        simp only [List.length_cons, ih r1 layers0 r2 hgl]

/-- Every emitted layer partitions the qubit wires `0 .. nq-1` into operand
groups of size 1 or 2. -/
theorem genLayers_partition (nq : Nat) (c : Bool) (oq tq thq : List GateKind)
    (creg : Option ClassicalRegister) :
    ∀ (d : Nat) (r : Rng) (layers : List (List EmittedOp)) (r' : Rng),
      genLayers nq c oq tq thq creg d r = .ok (layers, r') →
      ∀ L ∈ layers,
        List.Perm ((L.map EmittedOp.qargs).flatten) (List.range nq) ∧
        ∀ e ∈ L, e.qargs.length = 1 ∨ e.qargs.length = 2 := by
  intro d
  induction d with
  | zero =>
    intro r layers r' h
    rw [genLayers] at h
    simp only [Except.ok.injEq, Prod.mk.injEq] at h
    rw [← h.1]
    simp
  | succ n ih =>
    intro r layers r' h
    rw [genLayers] at h
    rcases hbl : buildLayer nq c oq tq thq creg (List.range nq) r with e | ⟨layer, r1⟩
    · simp only [hbl] at h
      exact absurd h (by simp)
    · simp only [hbl] at h
      rcases hgl : genLayers nq c oq tq thq creg n r1 with e | ⟨layers0, r2⟩
      · simp only [hgl] at h
        exact absurd h (by simp)
      · simp only [hgl, Except.ok.injEq, Prod.mk.injEq] at h
        rw [← h.1]
        intro L hL
        rcases List.mem_cons.mp hL with h2 | h2
        · subst h2
          exact buildLayer_partition nq c oq tq thq creg (List.range nq) r
            L r1 (List.nodup_range nq) hbl
        · exact ih r1 layers0 r2 hgl L h2

/-- With `conditional` false no emitted operation carries a condition. -/
theorem genLayers_nocond (nq : Nat) (oq tq thq : List GateKind)
    (creg : Option ClassicalRegister) :
    ∀ (d : Nat) (r : Rng) (layers : List (List EmittedOp)) (r' : Rng),
      genLayers nq false oq tq thq creg d r = .ok (layers, r') →
      ∀ L ∈ layers, ∀ e ∈ L, e.condition = none := by
  intro d
  induction d with
  | zero =>
    intro r layers r' h
    rw [genLayers] at h
    simp only [Except.ok.injEq, Prod.mk.injEq] at h
    rw [← h.1]
    simp
  | succ n ih =>
    intro r layers r' h
    rw [genLayers] at h
    rcases hbl : buildLayer nq false oq tq thq creg (List.range nq) r with e | ⟨layer, r1⟩
    · simp only [hbl] at h
      exact absurd h (by simp)
    · simp only [hbl] at h
      rcases hgl : genLayers nq false oq tq thq creg n r1 with e | ⟨layers0, r2⟩
      · simp only [hgl] at h
        exact absurd h (by simp)
      · simp only [hgl, Except.ok.injEq, Prod.mk.injEq] at h
        rw [← h.1]
        intro L hL
        rcases List.mem_cons.mp hL with h2 | h2
        · subst h2
          exact buildLayer_nocond nq oq tq thq creg (List.range nq) r L r1 hbl
        · exact ih r1 layers0 r2 hgl L h2

/-- The depth loop can only fail with a `ValueError` when the catalog
buckets for 1 and 2 operands are non-empty and a classical register exists
whenever `conditional` is set. -/
theorem genLayers_error (nq : Nat) (c : Bool) (oq tq thq : List GateKind)
    (creg : Option ClassicalRegister)
    (hoq : oq ≠ []) (htq : tq ≠ []) (hcr : c = true → creg ≠ none) :
    ∀ (d : Nat) (r : Rng) (e : GenError),
      genLayers nq c oq tq thq creg d r = .error e →
      e = .ValueError := by
  intro d
  induction d with
  | zero =>
    intro r e h
    rw [genLayers] at h
    exact absurd h (by simp)
  | succ n ih =>
    intro r e h
    rw [genLayers] at h
    rcases hbl : buildLayer nq c oq tq thq creg (List.range nq) r with e2 | ⟨layer, r1⟩
    · simp only [hbl, Except.error.injEq] at h
      rw [← h]
      exact buildLayer_error nq c oq tq thq creg hoq htq hcr (List.range nq) r e2 hbl
    · simp only [hbl] at h
      rcases hgl : genLayers nq c oq tq thq creg n r1 with e2 | ⟨layers0, r2⟩
      · simp only [hgl, Except.error.injEq] at h
        rw [← h]
        exact ih r1 e2 hgl
      · simp only [hgl] at h
        exact absurd h (by simp)

/-- On a single qubit, every layer is one single-qubit operation on wire 0
drawn from the one-operand bucket, and generation always succeeds. -/
theorem genLayers_one (c : Bool) (oq tq thq : List GateKind)
    (creg : Option ClassicalRegister) (hoq : oq ≠ [])
    (hcr : c = true → creg ≠ none) :
    ∀ (d : Nat) (r : Rng),
      ∃ (layers : List (List EmittedOp)) (r' : Rng),
        genLayers 1 c oq tq thq creg d r = .ok (layers, r') ∧
        layers.length = d ∧
        ∀ L ∈ layers, ∃ g a cnd, L = [⟨g, a, [0], cnd⟩] ∧ g ∈ oq := by
  intro d
  induction d with
  | zero =>
    intro r
    exact ⟨[], r, rfl, rfl, by simp⟩
  | succ n ih =>
    intro r
    obtain ⟨g, a, cnd, r1, hbl, hg⟩ := buildLayer_one c oq tq thq creg hoq hcr r
    obtain ⟨layers0, r2, hgl, hlen, hall⟩ := ih r1
    refine ⟨[⟨g, a, [0], cnd⟩] :: layers0, r2, ?_, ?_, ?_⟩
    · rw [genLayers]
      have hr1 : List.range 1 = [0] := rfl
      rw [hr1]
      simp only [hbl, hgl]
    · simp only [List.length_cons, hlen]
    · intro L hL
      rcases List.mem_cons.mp hL with h2 | h2
      · exact ⟨g, a, cnd, h2, hg⟩
      · exact hall L h2

/-- View an instruction as a measurement binding (qubit wire, classical
wire). -/
def asMeasure : Instruction → Option (Nat × Nat)
  | .op _ => none
  | .measure q cb => some (q, cb)

/-- The measurement bindings of a circuit, in emission order. -/
def measurements (c : Circuit) : List (Nat × Nat) :=
  c.data.filterMap asMeasure

theorem filterMap_asMeasure_map_op (ops : List EmittedOp) :
    List.filterMap asMeasure (ops.map Instruction.op) = [] := by
  induction ops with
  | nil => rfl
  | cons e t ih => simp [List.filterMap_cons, asMeasure, ih]

theorem filterMap_asMeasure_measures (l : List Nat) :
    List.filterMap asMeasure (l.map fun i => Instruction.measure i i) =
      l.map fun i => (i, i) := by
  induction l with
  | nil => rfl
  | cons x t ih => simp [List.filterMap_cons, asMeasure, ih]

/-- Inversion of a successful generation call: the request was valid, and
the circuit is the packaged result of the depth loop, with the trailing
measurements exactly when `measure` is set. -/
theorem random_circuit_ok (nq d : Nat) (m c rs : Bool) (seed : Option Nat)
    (F : Nat → Rng) (g : Nat) (circ : Circuit)
    (h : random_circuit nq d m c rs seed F g = .ok circ) :
    1 ≤ nq ∧
    ∃ (layers : List (List EmittedOp)) (r0 r' : Rng),
      genLayers nq c (one_q_ops rs) two_q_ops three_q_ops
        (if m || c then some ⟨nq, "c"⟩ else none) d r0 = .ok (layers, r') ∧
      circ = ⟨nq, (if m || c then some ⟨nq, "c"⟩ else none),
        (layers.flatten.map Instruction.op) ++
          (if m then (List.range nq).map (fun i => Instruction.measure i i)
           else [])⟩ := by
  rw [random_circuit.eq_def] at h
  split at h
  · exact absurd h (by simp)
  · rename_i hlt
    refine ⟨by omega, ?_⟩
    generalize (F (resolveSeed seed g)) = r0 at h
    rcases hgl : genLayers nq c (one_q_ops rs) two_q_ops three_q_ops
        (if m || c then some ⟨nq, "c"⟩ else none) d r0 with e | ⟨layers, r2⟩
    · simp only [hgl] at h
      exact absurd h (by simp)
    · simp only [hgl, Except.ok.injEq] at h
      exact ⟨layers, r0, r2, hgl, h.symm⟩

/-- Inversion of a failed generation call on a valid request: the error is
the one the depth loop produced. -/
theorem random_circuit_error (nq d : Nat) (m c rs : Bool) (seed : Option Nat)
    (F : Nat → Rng) (g : Nat) (e : GenError) (hval : 1 ≤ nq)
    (h : random_circuit nq d m c rs seed F g = .error e) :
    ∃ r0 : Rng,
      genLayers nq c (one_q_ops rs) two_q_ops three_q_ops
        (if m || c then some ⟨nq, "c"⟩ else none) d r0 = .error e := by
  rw [random_circuit.eq_def] at h
  split at h
  · rename_i hlt
    omega
  · generalize (F (resolveSeed seed g)) = r0 at h
    rcases hgl : genLayers nq c (one_q_ops rs) two_q_ops three_q_ops
        (if m || c then some ⟨nq, "c"⟩ else none) d r0 with e2 | ⟨layers, r2⟩
    · simp only [hgl, Except.error.injEq] at h
      exact ⟨r0, h ▸ hgl⟩
    · simp only [hgl] at h
      exact absurd h (by simp)

/-- The layer operations of the packaged circuit are exactly the flattened
layers; trailing measurements contribute none. -/
theorem opsOf_package (nq : Nat) (creg : Option ClassicalRegister)
    (ops : List EmittedOp) (m : Bool) :
    opsOf ⟨nq, creg, ops.map Instruction.op ++
      (if m then (List.range nq).map (fun i => Instruction.measure i i)
       else [])⟩ = ops := by
  cases m
  · simp only [Bool.false_eq_true, if_false]
    rw [opsOf]
    show List.filterMap asOp (ops.map Instruction.op ++ []) = ops
    rw [List.append_nil, filterMap_asOp_map_op]
  · simp only [if_true]
    rw [opsOf]
    show List.filterMap asOp (ops.map Instruction.op ++
      (List.range nq).map (fun i => Instruction.measure i i)) = ops
    rw [List.filterMap_append, filterMap_asOp_map_op, filterMap_asOp_measures,
      List.append_nil]

theorem flatten_length_ones {α : Type} :
    ∀ (ls : List (List α)), (∀ L ∈ ls, L.length = 1) →
      ls.flatten.length = ls.length := by
  intro ls
  induction ls with
  | nil => intro _; rfl
  | cons L t ih =>
    intro h
    rw [List.flatten_cons, List.length_append,
      ih (fun M hM => h M (List.mem_cons_of_mem L hM)),
      h L (List.mem_cons_self L t), List.length_cons]
    omega

theorem eval_genLayers2 :
    genLayers 2 false [.RX, .RY, .RZ] [.CX] [] none 1 zeroRng =
      .ok ([[⟨.RX, [0], [1], none⟩, ⟨.RX, [0], [0], none⟩]],
        { zeroRng with k := 5, j := 2 }) := by
  simp [genLayers, buildLayer, Rng.choiceIdx, Rng.nextNat, Rng.shuffle, shuffleGo,
    swapL, selectGate, Rng.choose, numAngles, one_param, two_param, three_param,
    drawAngles, Rng.uniform, drawCondition, zeroRng, twoPi, List.range_succ]

theorem eval_run2 : random_circuit 2 1 false false false (some 0) constSeed 0 =
    .ok ⟨2, none, [Instruction.op ⟨.RX, [0], [1], none⟩,
      Instruction.op ⟨.RX, [0], [0], none⟩]⟩ := by
  simp [random_circuit, resolveSeed, constSeed, genLayers, buildLayer, one_q_ops,
    two_q_ops, three_q_ops, Rng.choiceIdx, Rng.nextNat, Rng.shuffle, shuffleGo,
    swapL, selectGate, Rng.choose, numAngles, one_param, two_param, three_param,
    drawAngles, Rng.uniform, drawCondition, zeroRng, twoPi, List.range_succ]

theorem eval_run2m : random_circuit 2 1 true false false (some 0) constSeed 0 =
    .ok ⟨2, some ⟨2, "c"⟩, [Instruction.op ⟨.RX, [0], [1], none⟩,
      Instruction.op ⟨.RX, [0], [0], none⟩,
      Instruction.measure 0 0, Instruction.measure 1 1]⟩ := by
  simp [random_circuit, resolveSeed, constSeed, genLayers, buildLayer, one_q_ops,
    two_q_ops, three_q_ops, Rng.choiceIdx, Rng.nextNat, Rng.shuffle, shuffleGo,
    swapL, selectGate, Rng.choose, numAngles, one_param, two_param, three_param,
    drawAngles, Rng.uniform, drawCondition, zeroRng, twoPi, List.range_succ]

/-- C1: for every explicit seed and fixed flags, two independent generation
calls produce structurally identical output circuits — the whole gate-kind,
operand, parameter and condition sequence is a function of the seed and the
sampling service's seeded construction alone, and in particular does not
depend on the hidden global entropy source, which is consulted only when no
seed is given. -/
theorem claim_C1_seed_determinism (nq d : Nat) (m c rs : Bool) (s : Nat)
    (fromSeed : Nat → Rng) (g1 g2 : Nat) :
    random_circuit nq d m c rs (some s) fromSeed g1 =
      random_circuit nq d m c rs (some s) fromSeed g2 := rfl

/-- C2: in every successful generation the circuit data decomposes into the
emitted layers (plus the optional trailing measurements), and within every
layer the operand groups are each of size 1 or 2 and concatenate to a
permutation of the qubit indices `0 .. num_qubits - 1`: every qubit appears
in exactly one group. -/
theorem claim_C2_layer_partition (nq d : Nat) (m c rs : Bool)
    (seed : Option Nat) (F : Nat → Rng) (g : Nat) (circ : Circuit)
    (h : random_circuit nq d m c rs seed F g = .ok circ) :
    ∃ layers : List (List EmittedOp),
      circ.data = (layers.flatten.map Instruction.op) ++
        (if m then (List.range nq).map (fun i => Instruction.measure i i)
         else []) ∧
      ∀ L ∈ layers,
        List.Perm ((L.map EmittedOp.qargs).flatten) (List.range nq) ∧
        ∀ e ∈ L, e.qargs.length = 1 ∨ e.qargs.length = 2 := by
  obtain ⟨-, layers, r0, r', hgl, hc⟩ := random_circuit_ok nq d m c rs seed F g circ h
  subst hc
  exact ⟨layers, rfl, genLayers_partition nq c _ _ _ _ d r0 layers r' hgl⟩

/-- C2 witness: the concrete all-zero-stream run on 2 qubits and 1 layer. -/
theorem claim_C2_layer_partition_witness :
    ∃ layers : List (List EmittedOp),
      (⟨2, none, [Instruction.op ⟨.RX, [0], [1], none⟩,
        Instruction.op ⟨.RX, [0], [0], none⟩]⟩ : Circuit).data =
        (layers.flatten.map Instruction.op) ++
        (if false then (List.range 2).map (fun i => Instruction.measure i i)
         else []) ∧
      ∀ L ∈ layers,
        List.Perm ((L.map EmittedOp.qargs).flatten) (List.range 2) ∧
        ∀ e ∈ L, e.qargs.length = 1 ∨ e.qargs.length = 2 :=
  claim_C2_layer_partition 2 1 false false false (some 0) constSeed 0 _ eval_run2

/-- C3: a request with `num_qubits = 0` fails with `InvalidArgument` for
every depth, flag combination, seed and sampling service, before any
generation work: no partial circuit is ever returned. -/
theorem claim_C3_zero_qubits_invalid (d : Nat) (m c rs : Bool)
    (seed : Option Nat) (F : Nat → Rng) (g : Nat) :
    random_circuit 0 d m c rs seed F g = .error .InvalidArgument := rfl

/-- C4: every returned circuit has exactly `num_qubits` quantum wires, and
`num_qubits` classical wires iff `measure or conditional`, else zero. -/
theorem claim_C4_wire_counts (nq d : Nat) (m c rs : Bool) (seed : Option Nat)
    (F : Nat → Rng) (g : Nat) (circ : Circuit) (hval : 1 ≤ nq)
    (h : random_circuit nq d m c rs seed F g = .ok circ) :
    circ.num_qubits = nq ∧
    circ.num_clbits = (if m || c then nq else 0) := by
  obtain ⟨-, layers, r0, r', hgl, hc⟩ := random_circuit_ok nq d m c rs seed F g circ h
  subst hc
  refine ⟨rfl, ?_⟩
  by_cases hmc : (m || c) = true
  · simp [Circuit.num_clbits, hmc]
  · simp [Circuit.num_clbits, hmc]

/-- C4 witness: the concrete run on 2 qubits without classical wires. -/
theorem claim_C4_wire_counts_witness :
    (⟨2, none, [Instruction.op ⟨.RX, [0], [1], none⟩,
      Instruction.op ⟨.RX, [0], [0], none⟩]⟩ : Circuit).num_qubits = 2 ∧
    (⟨2, none, [Instruction.op ⟨.RX, [0], [1], none⟩,
      Instruction.op ⟨.RX, [0], [0], none⟩]⟩ : Circuit).num_clbits =
      (if false || false then 2 else 0) :=
  claim_C4_wire_counts 2 1 false false false (some 0) constSeed 0 _
    (by norm_num) eval_run2

/-- C5: with `measure` set, the circuit is the layer operations followed by
exactly the measurements binding qubit `i` to classical bit `i` in
insertion order; nothing precedes them but layer operations, nothing
follows them, and the measured classical bits are pairwise distinct. -/
theorem claim_C5_trailing_measurements (nq d : Nat) (c rs : Bool)
    (seed : Option Nat) (F : Nat → Rng) (g : Nat) (circ : Circuit)
    (h : random_circuit nq d true c rs seed F g = .ok circ) :
    ∃ body : List Instruction,
      circ.data = body ++
        (List.range nq).map (fun i => Instruction.measure i i) ∧
      (∀ ins ∈ body, ∃ e, ins = Instruction.op e) ∧
      measurements circ = (List.range nq).map (fun i => (i, i)) ∧
      ((measurements circ).map Prod.snd).Nodup := by
  obtain ⟨-, layers, r0, r', hgl, hc⟩ :=
    random_circuit_ok nq d true c rs seed F g circ h
  have hd : circ.data = (layers.flatten.map Instruction.op) ++
      ((List.range nq).map fun i => Instruction.measure i i) := by
    rw [hc]
    rfl
  have hm : measurements circ = (List.range nq).map fun i => (i, i) := by
    rw [hc]
    simp only [measurements, if_true]
    rw [List.filterMap_append, filterMap_asMeasure_map_op,
      filterMap_asMeasure_measures, List.nil_append]
  refine ⟨layers.flatten.map Instruction.op, hd, ?_, hm, ?_⟩
  · intro ins hins
    obtain ⟨e, _, heq⟩ := List.mem_map.mp hins
    exact ⟨e, heq.symm⟩
  · rw [hm, List.map_map]
    have hfun : (Prod.snd ∘ fun i : Nat => (i, i)) = fun i : Nat => i := rfl
    rw [hfun, List.map_id']
    exact List.nodup_range nq

/-- C5 witness: the concrete measured run on 2 qubits. -/
theorem claim_C5_trailing_measurements_witness :
    ∃ body : List Instruction,
      (⟨2, some ⟨2, "c"⟩, [Instruction.op ⟨.RX, [0], [1], none⟩,
        Instruction.op ⟨.RX, [0], [0], none⟩,
        Instruction.measure 0 0, Instruction.measure 1 1]⟩ : Circuit).data =
        body ++ (List.range 2).map (fun i => Instruction.measure i i) ∧
      (∀ ins ∈ body, ∃ e, ins = Instruction.op e) ∧
      measurements ⟨2, some ⟨2, "c"⟩, [Instruction.op ⟨.RX, [0], [1], none⟩,
        Instruction.op ⟨.RX, [0], [0], none⟩,
        Instruction.measure 0 0, Instruction.measure 1 1]⟩ =
        (List.range 2).map (fun i => (i, i)) ∧
      ((measurements ⟨2, some ⟨2, "c"⟩, [Instruction.op ⟨.RX, [0], [1], none⟩,
        Instruction.op ⟨.RX, [0], [0], none⟩,
        Instruction.measure 0 0, Instruction.measure 1 1]⟩).map Prod.snd).Nodup :=
  claim_C5_trailing_measurements 2 1 false false (some 0) constSeed 0 _ eval_run2m

/-- C6: with `conditional` false no emitted operation carries a classical
condition, for every seed, depth and other flags. -/
theorem claim_C6_no_conditions (nq d : Nat) (m rs : Bool) (seed : Option Nat)
    (F : Nat → Rng) (g : Nat) (circ : Circuit)
    (h : random_circuit nq d m false rs seed F g = .ok circ) :
    ∀ e ∈ opsOf circ, e.condition = none := by
  obtain ⟨-, layers, r0, r', hgl, hc⟩ :=
    random_circuit_ok nq d m false rs seed F g circ h
  rw [hc, opsOf_package]
  intro e he
  obtain ⟨L, hL, heL⟩ := List.mem_flatten.mp he
  exact genLayers_nocond nq _ _ _ _ d r0 layers r' hgl L hL e heL

/-- C6 witness: both operations of the concrete run carry no condition. -/
theorem claim_C6_no_conditions_witness :
    (⟨.RX, [0], [1], none⟩ : EmittedOp).condition = none ∧
    (⟨.RX, [0], [0], none⟩ : EmittedOp).condition = none :=
  ⟨claim_C6_no_conditions 2 1 false false (some 0) constSeed 0 _ eval_run2
      ⟨.RX, [0], [1], none⟩ (by simp [opsOf, asOp]),
    claim_C6_no_conditions 2 1 false false (some 0) constSeed 0 _ eval_run2
      ⟨.RX, [0], [0], none⟩ (by simp [opsOf, asOp])⟩

set_option maxHeartbeats 4000000 in
set_option maxRecDepth 10000 in
/-- C7 counterexample: at `num_qubits = 63` the claim fails.  With the
all-zero stream the `{0,...,9}` draw is 0, so a condition should be
attached with a value uniform in `[0, 2^63)`; instead `np.power(2, 63)`
wraps around to a negative int64, the integer draw raises `ValueError`, and
the whole generation call fails — no operation receives a condition. -/
theorem claim_C7_condition_range_counterexample :
    zeroRng.ints zeroRng.k % 10 = 0 ∧
    npPower 2 63 = -9223372036854775808 ∧
    drawCondition true 63 (some ⟨63, "c"⟩) zeroRng = .error .ValueError ∧
    random_circuit 63 1 false true false (some 0) constSeed 0 =
      .error .ValueError := by
  refine ⟨rfl, by decide, rfl, ?_⟩
  have hnp : npPower 2 63 = -9223372036854775808 := by decide
  simp [random_circuit, resolveSeed, constSeed, genLayers, buildLayer, one_q_ops,
    two_q_ops, three_q_ops, Rng.choiceIdx, Rng.nextNat, Rng.shuffle, shuffleGo,
    swapL, selectGate, Rng.choose, numAngles, one_param, two_param, three_param,
    drawAngles, Rng.uniform, drawCondition, Rng.integers, hnp, zeroRng, twoPi,
    List.range_succ]

/-- C7 (amended): for `1 ≤ num_qubits ≤ 62`, the condition step attaches a
classical condition exactly when the uniform `{0,...,9}` draw is 0, and the
attached value is the integer draw over the exact range
`[0, 2^num_qubits)`, referencing the given classical register; from 63
qubits on, the int64 evaluation of `np.power(2, num_qubits)` overflows and
the condition step raises `ValueError` instead whenever the `{0,...,9}`
draw is 0. -/
theorem claim_C7_condition_range_amended (nq : Nat) (cr : ClassicalRegister)
    (r : Rng) (h1 : 1 ≤ nq) (h2 : nq ≤ 62) :
    (r.ints r.k % 10 = 0 →
      drawCondition true nq (some cr) r =
        .ok (some (cr, ((r.ints (r.k + 1) : Int)) % 2 ^ nq),
          { r with k := r.k + 2 }) ∧
      0 ≤ ((r.ints (r.k + 1) : Int)) % 2 ^ nq ∧
      ((r.ints (r.k + 1) : Int)) % 2 ^ nq < 2 ^ nq) ∧
    (r.ints r.k % 10 ≠ 0 →
      drawCondition true nq (some cr) r = .ok (none, { r with k := r.k + 1 })) ∧
    (∀ nq' : Nat, 63 ≤ nq' → ∀ r' : Rng, r'.ints r'.k % 10 = 0 →
      drawCondition true nq' (some cr) r' = .error .ValueError) := by
  refine ⟨fun hz => ⟨drawCondition_zero nq cr r h1 h2 hz, ?_, ?_⟩,
    fun hz => drawCondition_nonzero nq (some cr) r hz, ?_⟩
  · exact Int.emod_nonneg _ (ne_of_gt (pow_pos (by norm_num) nq))
  · exact Int.emod_lt_of_pos _ (pow_pos (by norm_num) nq)
  · intro nq' h63 r' hz
    rw [drawCondition]
    simp only [if_true, Rng.choiceIdx, Rng.nextNat]
    rw [if_neg (by norm_num : ¬(10 = 0))]
    simp only [if_pos hz, Rng.integers]
    rw [if_neg (not_lt.mpr (npPower_overflow nq' h63))]

/-- C7 witness: the amended statement at one qubit with the all-zero
stream. -/
theorem claim_C7_condition_range_witness :
    drawCondition true 1 (some ⟨1, "c"⟩) zeroRng =
      .ok (some (⟨1, "c"⟩, 0), { zeroRng with k := 2 }) :=
  ((claim_C7_condition_range_amended 1 ⟨1, "c"⟩ zeroRng (by norm_num)
    (by norm_num)).1 rfl).1

/-- C8: exactly `depth` layers are emitted for every depth, and in
particular the request `num_qubits = 1, depth = 0, measure = true` yields,
for every seed and sampling service, the circuit with 1 quantum wire, the
1-bit classical register, no layer operations and one measurement. -/
theorem claim_C8_depth_layers :
    (∀ (nq : Nat) (c : Bool) (oq tq thq : List GateKind)
      (creg : Option ClassicalRegister) (d : Nat) (r : Rng)
      (layers : List (List EmittedOp)) (r' : Rng),
      genLayers nq c oq tq thq creg d r = .ok (layers, r') →
      layers.length = d) ∧
    (∀ (seed : Option Nat) (F : Nat → Rng) (g : Nat),
      random_circuit 1 0 true false false seed F g =
        .ok ⟨1, some ⟨1, "c"⟩, [Instruction.measure 0 0]⟩) :=
  ⟨fun nq c oq tq thq creg d r layers r' h =>
      genLayers_length nq c oq tq thq creg d r layers r' h,
    fun _ _ _ => rfl⟩

/-- C8 witness: the concrete one-layer run emits exactly one layer, and the
depth-0 measured example evaluated at a concrete seed and service. -/
theorem claim_C8_depth_layers_witness :
    ([[(⟨.RX, [0], [1], none⟩ : EmittedOp), ⟨.RX, [0], [0], none⟩]]).length = 1 ∧
    random_circuit 1 0 true false false (some 0) constSeed 0 =
      .ok ⟨1, some ⟨1, "c"⟩, [Instruction.measure 0 0]⟩ :=
  ⟨claim_C8_depth_layers.1 2 false [.RX, .RY, .RZ] [.CX] [] none 1 zeroRng _ _
      eval_genLayers2,
    claim_C8_depth_layers.2 (some 0) constSeed 0⟩

/-- C9: on a single qubit generation always succeeds, every layer places
exactly one single-qubit operation on wire 0, the number of layer
operations equals the depth (so depth 5 gives exactly 5), and no two-qubit
`CX` ever appears. -/
theorem claim_C9_single_qubit (d : Nat) (m c rs : Bool) (seed : Option Nat)
    (F : Nat → Rng) (g : Nat) :
    ∃ circ : Circuit,
      random_circuit 1 d m c rs seed F g = .ok circ ∧
      (opsOf circ).length = d ∧
      ∀ e ∈ opsOf circ, e.qargs = [0] ∧ e.gate ≠ .CX := by
  have hoq : one_q_ops rs ≠ [] := by cases rs <;> simp [one_q_ops]
  have hcr : c = true →
      (if m || c then some (⟨1, "c"⟩ : ClassicalRegister) else none) ≠ none := by
    intro hc
    subst hc
    simp
  obtain ⟨layers, r', hgl, hlen, hall⟩ :=
    genLayers_one c (one_q_ops rs) two_q_ops three_q_ops
      (if m || c then some ⟨1, "c"⟩ else none) hoq hcr d (F (resolveSeed seed g))
  have hone : ∀ L ∈ layers, L.length = 1 := by
    intro L hL
    obtain ⟨g0, a0, cnd0, hLe, -⟩ := hall L hL
    rw [hLe]
    rfl
  refine ⟨⟨1, (if m || c then some ⟨1, "c"⟩ else none),
    (layers.flatten.map Instruction.op) ++
      (if m then (List.range 1).map (fun i => Instruction.measure i i)
       else [])⟩, ?_, ?_, ?_⟩
  · rw [random_circuit.eq_def]
    rw [if_neg (by norm_num : ¬(1 < 1))]
    simp only [hgl]
  · rw [opsOf_package, flatten_length_ones layers hone]
    exact hlen
  · rw [opsOf_package]
    intro e he
    obtain ⟨L, hL, heL⟩ := List.mem_flatten.mp he
    obtain ⟨g0, a0, cnd0, hLe, hg0⟩ := hall L hL
    subst hLe
    have he0 : e = ⟨g0, a0, [0], cnd0⟩ := by simpa using heL
    subst he0
    refine ⟨rfl, ?_⟩
    intro hcx
    have : g0 = .CX := hcx
    subst this
    cases rs <;> simp [one_q_ops] at hg0

/-- C9 witness: the single-qubit depth-5 boundary case at a concrete seed
and service. -/
theorem claim_C9_single_qubit_witness :
    ∃ circ : Circuit,
      random_circuit 1 5 false false false (some 0) constSeed 0 = .ok circ ∧
      (opsOf circ).length = 5 ∧
      ∀ e ∈ opsOf circ, e.qargs = [0] ∧ e.gate ≠ .CX :=
  claim_C9_single_qubit 5 false false false (some 0) constSeed 0

/-- C10: generation never fails with `CatalogExhausted` and never reaches
the three-operand selection branch or any other unbound-name path — the
resolved operand count is always 1 or 2, whose catalog buckets are both
non-empty — and correspondingly every emitted operation has 1 or 2
operands. -/
theorem claim_C10_no_catalog_failure (nq d : Nat) (m c rs : Bool)
    (seed : Option Nat) (F : Nat → Rng) (g : Nat) (hval : 1 ≤ nq) :
    random_circuit nq d m c rs seed F g ≠ .error .CatalogExhausted ∧
    random_circuit nq d m c rs seed F g ≠ .error .Unreachable ∧
    ∀ circ : Circuit, random_circuit nq d m c rs seed F g = .ok circ →
      ∀ e ∈ opsOf circ, e.qargs.length = 1 ∨ e.qargs.length = 2 := by
  have hoq : one_q_ops rs ≠ [] := by cases rs <;> simp [one_q_ops]
  have htq : two_q_ops ≠ [] := by simp [two_q_ops]
  have hcr : c = true →
      (if m || c then some (⟨nq, "c"⟩ : ClassicalRegister) else none) ≠ none := by
    intro hc
    subst hc
    simp
  refine ⟨?_, ?_, ?_⟩
  · intro h
    obtain ⟨r0, hgl⟩ := random_circuit_error nq d m c rs seed F g _ hval h
    have := genLayers_error nq c _ _ _ _ hoq htq hcr d r0 _ hgl
    simp at this
  · intro h
    obtain ⟨r0, hgl⟩ := random_circuit_error nq d m c rs seed F g _ hval h
    have := genLayers_error nq c _ _ _ _ hoq htq hcr d r0 _ hgl
    simp at this
  · intro circ hok e he
    obtain ⟨-, layers, r0, r', hgl, hc2⟩ :=
      random_circuit_ok nq d m c rs seed F g circ hok
    rw [hc2, opsOf_package] at he
    obtain ⟨L, hL, heL⟩ := List.mem_flatten.mp he
    exact (genLayers_partition nq c _ _ _ _ d r0 layers r' hgl L hL).2 e heL

/-- C10 witness: the concrete run on 2 qubits. -/
theorem claim_C10_no_catalog_failure_witness :
    random_circuit 2 1 false false false (some 0) constSeed 0 ≠
      .error .CatalogExhausted ∧
    random_circuit 2 1 false false false (some 0) constSeed 0 ≠
      .error .Unreachable ∧
    ∀ circ : Circuit,
      random_circuit 2 1 false false false (some 0) constSeed 0 = .ok circ →
      ∀ e ∈ opsOf circ, e.qargs.length = 1 ∨ e.qargs.length = 2 :=
  claim_C10_no_catalog_failure 2 1 false false false (some 0) constSeed 0
    (by norm_num)

end RandomCircuit
